import Mathlib

/-!
Shallow embedding of the gqs job-queue core (Go) in Lean 4.

The embedding models:
* `job.Status` and its text codec (src/job/status.go),
* `job.Job` / `message.Message` (src/job/job.go, src/message/message.go),
* the relational `Puller` operations over a list-of-rows store
  (src/sql/puller.go), the `Pusher` insert (src/sql/pusher.go,
  src/sql/model.go) and the `Cleaner` delete (src/sql/cleaner.go),
* the backoff counter (src/backoff.go),
* the result-interpretation logic of the worker (src/worker.go) and
  the lifecycle guard (src/lc.go).

Wall-clock instants and durations are modelled as integers (nanosecond
counts); Go float64 arithmetic of the backoff counter is modelled with
exact rationals; Go `rand.Float64()` is an explicit parameter in `[0,1)`.
-/

namespace Gqs

/-! ### Status (src/job/status.go) -/

/-- Status constant `Unknown = 0` (zero value, "no filter"). -/
def Unknown : Nat := 0

/-- Status constant `Pending = 1`. -/
def Pending : Nat := 1

/-- Status constant `Processing = 2`. -/
def Processing : Nat := 2

/-- Status constant `Done = 3`. -/
def Done : Nat := 3

/-- Status constant `Dead = 4`. -/
def Dead : Nat := 4

/-- Embeds `statusToString` of src/job/status.go: the switch over the four
named non-zero states with default branch `"Unknown"`. -/
def statusToString (s : Nat) : String :=
  if s = Pending then "Pending"
  else if s = Processing then "Processing"
  else if s = Done then "Done"
  else if s = Dead then "Dead"
  else "Unknown"

/-- Embeds `statusFromString` of src/job/status.go: the switch over the five
canonical names, `none` standing for the `fmt.Errorf` failure branch.
`ParseStatus` is a direct wrapper of this function in the source. -/
def statusFromString (s : String) : Option Nat :=
  if s = "Pending" then some Pending
  else if s = "Processing" then some Processing
  else if s = "Done" then some Done
  else if s = "Dead" then some Dead
  else if s = "Unknown" then some Unknown
  else none

/-! ### Message and Job (src/message/message.go, src/job/job.go) -/

/-- Embeds `message.Message`: identifier (uuid modelled as `Nat`), metadata
map (association list with opaque values) and opaque payload bytes. -/
structure Message where
  uid : Nat
  metadata : List (String × Nat)
  payload : List Nat
  deriving DecidableEq

/-- Embeds `job.Job` of src/job/job.go (also the storage row `jobModel` of
src/sql/model.go, whose columns are in one-to-one correspondence with the
fields of `job.Job`). Times are integer nanosecond instants. -/
structure Job where
  message : Message
  createdAt : Int
  updatedAt : Int
  status : Nat
  attempts : Nat
  lockedUntil : Option Int
  nextRunAt : Int
  deriving DecidableEq

/-- Field promotion `jb.Id` of the embedded message. -/
def Job.jid (j : Job) : Nat := j.message.uid

/-- Typed errors of the gqs package (src/puller.go, src/cleaner.go). -/
inductive GqsError where
  | jobLost
  | lockLost
  | completeFailed
  | badStatus
  deriving DecidableEq

/-! ### Relational Puller (src/sql/puller.go)

A store is a list of rows; SQL `UPDATE ... WHERE` is a map over the rows
guarded by the row predicate of the `WHERE` clause, and `RowsAffected` is
`countP` of that predicate. -/

/-- Embeds the eligibility subquery of `Puller.Pull`:
`next_run_at <= now AND (status = Pending OR (status = Processing AND
locked_until < now))`; a SQL comparison with a NULL `locked_until` is
false. -/
def eligible (now : Int) (r : Job) : Bool :=
  decide (r.nextRunAt ≤ now) &&
    (r.status == Pending ||
      (r.status == Processing &&
        (match r.lockedUntil with
         | some l => decide (l < now)
         | none => false)))

/-- Embeds the `SET` clauses of the `Pull` update: status to Processing,
attempts incremented, lock to `now + lock`, updated stamp refreshed. -/
def pullUpdate (now lockUntil : Int) (r : Job) : Job :=
  { r with
    status := Processing
    attempts := r.attempts + 1
    lockedUntil := some lockUntil
    updatedAt := now }

/-- Ordering relation of the `ORDER BY next_run_at ASC` clause. -/
def runLE (a b : Job) : Prop := a.nextRunAt ≤ b.nextRunAt

instance : DecidableRel runLE := fun a b => inferInstanceAs (Decidable (a.nextRunAt ≤ b.nextRunAt))

instance : IsTotal Job runLE := ⟨fun a b => Int.le_total a.nextRunAt b.nextRunAt⟩

instance : IsTrans Job runLE := ⟨fun _ _ _ => Int.le_trans⟩

/-- Embeds the id subquery of `Puller.Pull`: eligible rows, ordered by
`next_run_at` ascending (ties kept in store order: insertion sort is
stable), limited to `batch`. The selected rows are kept whole here; the
Go query projects their ids. -/
def pullSelect (store : List Job) (now : Int) (batch : Nat) : List Job :=
  (List.insertionSort runLE (store.filter (eligible now))).take batch

/-- Embeds `Puller.Pull` (src/sql/puller.go lines 58-86): the single
`UPDATE ... WHERE id IN (subquery) RETURNING *` statement. Returns the
post-mutation snapshots and the mutated store. -/
def pull (store : List Job) (now : Int) (batch : Nat) (lock : Int) :
    List Job × List Job :=
  let selected := pullSelect store now batch
  let ids := selected.map Job.jid
  let store2 := store.map fun r =>
    if r.jid ∈ ids then pullUpdate now (now + lock) r else r
  (selected.map (pullUpdate now (now + lock)), store2)

/-- Row predicate of the `ExtendLock` update:
`WHERE id = ? AND status = Processing`. -/
def extendPred (jb : Job) (r : Job) : Bool :=
  r.jid == jb.jid && r.status == Processing

/-- Embeds `Puller.ExtendLock` (src/sql/puller.go lines 97-117): update
`locked_until` and `updated_at` of the Processing row with the job's id;
zero affected rows yield `ErrLockLost` and leave the snapshot untouched,
otherwise the snapshot is refreshed in place. -/
def extendLock (store : List Job) (jb : Job) (now lock : Int) :
    Option GqsError × Job × List Job :=
  let store2 := store.map fun r =>
    if extendPred jb r then
      { r with lockedUntil := some (now + lock), updatedAt := now }
    else r
  if store.countP (extendPred jb) = 0 then
    (some GqsError.lockLost, jb, store2)
  else
    (none,
     { jb with updatedAt := now, lockedUntil := some (now + lock), status := Processing },
     store2)

/-- Embeds `Puller.Complete` (src/sql/puller.go lines 125-145): transition
the Processing row with the job's id to Done, clearing the lock; zero
affected rows yield `ErrCompleteFailed`. -/
def complete (store : List Job) (jb : Job) (now : Int) :
    Option GqsError × Job × List Job :=
  let store2 := store.map fun r =>
    if extendPred jb r then
      { r with status := Done, lockedUntil := none, updatedAt := now }
    else r
  if store.countP (extendPred jb) = 0 then
    (some GqsError.completeFailed, jb, store2)
  else
    (none,
     { jb with status := Done, lockedUntil := none, updatedAt := now },
     store2)

/-- Embeds `Puller.Return` (src/sql/puller.go lines 157-180): reschedule
the Processing row with the job's id back to Pending with
`next_run_at = now + backoff`, clearing the lock; zero affected rows
yield `ErrJobLost`. -/
def returnJob (store : List Job) (jb : Job) (now backoff : Int) :
    Option GqsError × Job × List Job :=
  let store2 := store.map fun r =>
    if extendPred jb r then
      { r with status := Pending, nextRunAt := now + backoff,
               lockedUntil := none, updatedAt := now }
    else r
  if store.countP (extendPred jb) = 0 then
    (some GqsError.jobLost, jb, store2)
  else
    (none,
     { jb with status := Pending, nextRunAt := now + backoff,
               lockedUntil := none, updatedAt := now },
     store2)

/-- Row predicate of the `Kill` update:
`WHERE id = ? AND status IN (Pending, Processing)`. -/
def killPred (jb : Job) (r : Job) : Bool :=
  r.jid == jb.jid && (r.status == Pending || r.status == Processing)

/-- Embeds `Puller.Kill` (src/sql/puller.go lines 191-211): transition the
Pending or Processing row with the job's id to Dead, clearing the lock;
zero affected rows yield `ErrJobLost`. -/
def kill (store : List Job) (jb : Job) (now : Int) :
    Option GqsError × Job × List Job :=
  let store2 := store.map fun r =>
    if killPred jb r then
      { r with status := Dead, lockedUntil := none, updatedAt := now }
    else r
  if store.countP (killPred jb) = 0 then
    (some GqsError.jobLost, jb, store2)
  else
    (none,
     { jb with status := Dead, lockedUntil := none, updatedAt := now },
     store2)

/-! ### Pusher (src/sql/pusher.go, src/sql/model.go) -/

/-- Embeds `fromMessage` of src/sql/model.go: the fresh row inserted by
`Pusher.Push` (`Attempts` keeps the Go zero value 0). -/
def fromMessage (msg : Message) (now delay : Int) : Job :=
  { message := msg
    createdAt := now
    updatedAt := now
    status := Pending
    attempts := 0
    lockedUntil := none
    nextRunAt := now + delay }

/-- Embeds `Pusher.Push` (src/sql/pusher.go): insert the row built by
`fromMessage`. -/
def push (store : List Job) (msg : Message) (now delay : Int) : List Job :=
  store ++ [fromMessage msg now delay]

/-! ### Cleaner (src/sql/cleaner.go) -/

/-- Row predicate of the `Clean` delete: the status filter
(`status = ?`, or `status IN (Done, Dead)` for the zero value) joined
with the optional `updated_at <= before` filter. -/
def cleanPred (status : Nat) (before : Option Int) (r : Job) : Bool :=
  (if status ≠ 0 then r.status == status
   else r.status == Done || r.status == Dead) &&
    (match before with
     | some b => decide (r.updatedAt ≤ b)
     | none => true)

/-- Embeds `Cleaner.Clean` (src/sql/cleaner.go lines 52-70): reject a
non-terminal non-zero status with `ErrBadStatus` before touching the
store, otherwise delete the matching rows and report their count. -/
def clean (store : List Job) (status : Nat) (before : Option Int) :
    Except GqsError Int × List Job :=
  if status ≠ 0 ∧ status ≠ Dead ∧ status ≠ Done then
    (Except.error GqsError.badStatus, store)
  else
    ((Except.ok (store.countP (cleanPred status before) : Int)),
     store.filter fun r => ! cleanPred status before r)

/-! ### Backoff counter (src/backoff.go) -/

/-- Embeds `BackoffConfig`: durations and float factors as exact
rationals, `MaxRetries` as the `uint32` value. -/
structure BackoffConfig where
  maxRetries : Nat
  initialInterval : ℚ
  maxInterval : ℚ
  multiplier : ℚ
  randomizationFactor : ℚ
  deriving DecidableEq

/-- Models the Go expression `attempt - 1` on `uint32`(wraparound at
zero): subtraction modulo `2^32`. -/
def u32sub1 (attempt : Nat) : Nat := (attempt + 4294967295) % 4294967296

/-- Embeds `backoffCounter.next` (src/backoff.go lines 21-36): the retry
budget check, the exponential `InitialInterval * Multiplier^(attempt-1)`
clamped from above by `MaxInterval`, and the uniform randomisation within
`[exp*(1-r), exp*(1+r)]`; `u` stands for the `rand.Float64()` draw. -/
def backoffNext (bc : BackoffConfig) (attempt : Nat) (u : ℚ) : ℚ × Bool :=
  if 0 < bc.maxRetries ∧ bc.maxRetries < attempt then (0, false)
  else
    let e0 := bc.initialInterval * bc.multiplier ^ u32sub1 attempt
    let e1 := if e0 > bc.maxInterval then bc.maxInterval else e0
    let e2 :=
      if 0 < bc.randomizationFactor then
        let delta := bc.randomizationFactor * e1
        let minExp := e1 - delta
        let maxExp := e1 + delta
        minExp + u * (maxExp - minExp)
      else e1
    (e2, true)

/-! ### Worker result interpretation (src/worker.go) -/

/-- Error values flowing from a handler or from `ExtendLock` into
`Worker.handle`: the typed gqs sentinels, the `ErrKill` sentinel
documented by the README and exercised by `TestWorkerKillShortcut`, and
arbitrary other errors. -/
inductive GoError where
  | lockLost
  | jobLost
  | completeFailed
  | kill
  | generic (code : Nat)
  deriving DecidableEq

/-- Transition the worker attempts after a handler run, as decided by
`Worker.handle`. -/
inductive Outcome where
  | complete
  | abandon
  | killJob
  | retryJob (delay : ℚ)
  deriving DecidableEq

/-- Embeds the decision logic of `Worker.handle` (src/worker.go lines
152-174): `nil` means `Complete`; `ErrLockLost` is logged and the job
abandoned; every other error consults the backoff counter with the job's
`Attempts` and yields `Return` or, once exhausted, `Kill`. -/
def handleDecision (bc : BackoffConfig) (attempts : Nat) (u : ℚ)
    (res : Option GoError) : Outcome :=
  match res with
  | none => Outcome.complete
  | some e =>
    if e = GoError.lockLost then Outcome.abandon
    else
      match backoffNext bc attempts u with
      | (d, true) => Outcome.retryJob d
      | (_, false) => Outcome.killJob

/-- Embeds the select loop of `Worker.handleOrExtend` (src/worker.go lines
132-150), sequentialised: `extendResults` are the outcomes of the
`ExtendLock` calls whose timer ticks fire before the handler completes,
`handlerRes` the handler's result. Returns the error value handed to
`Worker.handle` together with a flag recording whether `cancel()` was
invoked before returning (the derived per-job context cancelled early). -/
def handleOrExtend (extendResults : List (Option GoError))
    (handlerRes : Option GoError) : Option GoError × Bool :=
  match extendResults with
  | [] => (handlerRes, false)
  | some e :: _ => (some e, true)
  | none :: rest => handleOrExtend rest handlerRes

/-! ### Lifecycle guard (src/lc.go) -/

/-- Lifecycle sentinel errors of src/lc.go. -/
inductive LcError where
  | doubleStarted
  | doubleStopped
  deriving DecidableEq

/-- Lifecycle calls of `lcBase`: `tryStart` and `tryStop`. -/
inductive LcOp where
  | start
  | stop
  deriving DecidableEq

/-- State constant `stopped = 0` of src/lc.go. -/
def lcStopped : Nat := 0

/-- State constant `started = 1` of src/lc.go. -/
def lcStarted : Nat := 1

/-- Embeds `lcBase.tryStart` and `lcBase.tryStop` (src/lc.go lines 38-58):
each is a compare-and-set on the atomic state variable; a failed CAS
returns the corresponding sentinel and leaves the state unchanged. The
timeout-join of `tryStop` after a successful CAS does not affect the
state variable and is outside this model. -/
def lcStep (s : Nat) (op : LcOp) : Option LcError × Nat :=
  match op with
  | LcOp.start =>
    if s = lcStopped then (none, lcStarted) else (some LcError.doubleStarted, s)
  | LcOp.stop =>
    if s = lcStarted then (none, lcStopped) else (some LcError.doubleStopped, s)

/-- Runs a sequence of lifecycle calls against the atomic state machine
(concurrent calls linearise through the CAS), collecting each call's
result. -/
def lcRun (s : Nat) : List LcOp → List (Option LcError) × Nat
  | [] => ([], s)
  | op :: rest =>
    let r := lcStep s op
    let rs := lcRun r.2 rest
    (r.1 :: rs.1, rs.2)

/-- Number of successful `Start` calls in a run. -/
def countStartOk (ops : List LcOp) (rs : List (Option LcError)) : Nat :=
  (ops.zip rs).countP fun p => p.1 == LcOp.start && p.2 == none

/-- Number of successful `Stop` calls in a run. -/
def countStopOk (ops : List LcOp) (rs : List (Option LcError)) : Nat :=
  (ops.zip rs).countP fun p => p.1 == LcOp.stop && p.2 == none

/-! ### Specification-side predicates and invariants -/

/-- Deletion predicate of the Cleaner contract as the spec words it: the
row's status equals the requested status (both terminal statuses when the
request is `Unknown`), and, when a cutoff is supplied, the row's update
stamp is at most the cutoff. -/
def deleted (status : Nat) (before : Option Int) (r : Job) : Prop :=
  (if status = Unknown then r.status = Done ∨ r.status = Dead
   else r.status = status) ∧
    (match before with
     | some b => r.updatedAt ≤ b
     | none => True)

instance (status : Nat) (before : Option Int) (r : Job) :
    Decidable (deleted status before r) := by
  unfold deleted
  cases before <;> exact inferInstance

/-- Row invariant 2 of the spec: the lock is set exactly on Processing
rows. -/
def jobInv (r : Job) : Bool := r.lockedUntil.isSome == (r.status == Processing)

/-- Store-wide lock/status invariant. -/
def storeInv (store : List Job) : Bool := store.all jobInv

/-! ### Concrete sample data for witnesses -/

/-- Sample message. -/
def demoMessage : Message := ⟨1, [], []⟩

/-- Sample Pending row, immediately eligible. -/
def demoPendingJob : Job :=
  { message := demoMessage, createdAt := 0, updatedAt := 0,
    status := Pending, attempts := 0, lockedUntil := none, nextRunAt := 0 }

/-- Sample Processing row holding a live lease. -/
def demoProcessingJob : Job :=
  { message := ⟨2, [], []⟩, createdAt := 0, updatedAt := 5,
    status := Processing, attempts := 1, lockedUntil := some 500, nextRunAt := 0 }

/-- Sample terminal row. -/
def demoDoneJob : Job :=
  { message := ⟨3, [], []⟩, createdAt := 0, updatedAt := 9,
    status := Done, attempts := 1, lockedUntil := none, nextRunAt := 0 }

/-! ### Helper lemmas about guarded row updates -/

/-- A SQL `UPDATE ... WHERE` that affects no rows leaves the table
unchanged. -/
theorem map_guard_id {α : Type} (p : α → Bool) (f : α → α) (l : List α)
    (h : l.countP p = 0) : (l.map fun r => if p r then f r else r) = l := by
  have hall := List.countP_eq_zero.mp h
  calc (l.map fun r => if p r then f r else r) = l.map id := by
        apply List.map_congr_left
        intro a ha
        simp [hall a ha]
    _ = l := List.map_id l

/-- The updated image of a matching row is a row of the updated table. -/
theorem mem_map_guard {α : Type} {p : α → Bool} {f : α → α} {l : List α} {r : α}
    (hr : r ∈ l) (hp : p r = true) :
    f r ∈ l.map fun x => if p x then f x else x := by
  have := List.mem_map_of_mem (fun x => if p x then f x else x) hr
  simpa [hp] using this

/-! ### C8 — Status text codec round-trip -/

/-- C8: parsing the canonical string form of each of the five named
Status values yields the original value, and `ParseStatus` (that is,
`statusFromString`) rejects every string other than the five canonical
names. -/
theorem statusCodec_roundTrip :
    (statusFromString (statusToString Unknown) = some Unknown ∧
     statusFromString (statusToString Pending) = some Pending ∧
     statusFromString (statusToString Processing) = some Processing ∧
     statusFromString (statusToString Done) = some Done ∧
     statusFromString (statusToString Dead) = some Dead) ∧
    ∀ s : String, s ≠ "Unknown" → s ≠ "Pending" → s ≠ "Processing" →
      s ≠ "Done" → s ≠ "Dead" → statusFromString s = none := by
  refine ⟨by decide, ?_⟩
  intro s h1 h2 h3 h4 h5
  simp [statusFromString, h1, h2, h3, h4, h5]

/-- C8 witness: the codec rejects a string that is not a canonical
name. -/
theorem statusCodec_roundTrip_witness : statusFromString "Cancelled" = none :=
  statusCodec_roundTrip.2 "Cancelled" (by decide) (by decide) (by decide)
    (by decide) (by decide)

/-! ### C6 — Cleaner.Clean -/

/-- The row predicate compiled into the Clean query agrees with the
spec-side deletion predicate. -/
theorem cleanPred_eq_deleted (status : Nat) (before : Option Int) (r : Job) :
    cleanPred status before r = decide (deleted status before r) := by
  by_cases h : status = 0 <;>
    cases before <;>
      (rw [Bool.eq_iff_iff]; simp [cleanPred, deleted, Unknown, h])

/-- C6: `Clean` rejects a status outside `{Unknown, Done, Dead}` with
`BadStatus` and deletes nothing; for an accepted status it deletes
exactly the rows matched by the deletion predicate and returns their
count. -/
theorem clean_spec (store : List Job) (status : Nat) (before : Option Int) :
    (¬(status = Unknown ∨ status = Done ∨ status = Dead) →
       clean store status before = (Except.error GqsError.badStatus, store)) ∧
    ((status = Unknown ∨ status = Done ∨ status = Dead) →
       (clean store status before).1 =
         Except.ok ((store.countP fun r => decide (deleted status before r) : Nat) : Int) ∧
       ∀ r : Job, r ∈ (clean store status before).2 ↔
         r ∈ store ∧ ¬ deleted status before r) := by
  constructor
  · intro hbad
    push_neg at hbad
    obtain ⟨h0, h3, h4⟩ := hbad
    have hcond : status ≠ 0 ∧ status ≠ Dead ∧ status ≠ Done :=
      ⟨by simpa [Unknown] using h0, h4, h3⟩
    simp [clean, hcond]
  · intro hok
    have hcond : ¬(status ≠ 0 ∧ status ≠ Dead ∧ status ≠ Done) := by
      rcases hok with h | h | h <;> simp [h, Unknown, Done, Dead]
    constructor
    · simp only [clean, if_neg hcond]
      congr 2
      apply List.countP_congr
      intro r _
      rw [cleanPred_eq_deleted]
    · intro r
      simp only [clean, if_neg hcond]
      rw [List.mem_filter]
      rw [cleanPred_eq_deleted]
      simp

/-- C6 witness: a non-terminal status is rejected without deletions, and
cleaning `Done` rows removes the sample terminal row. -/
theorem clean_spec_witness :
    clean [demoDoneJob] Pending none = (Except.error GqsError.badStatus, [demoDoneJob]) ∧
    (clean [demoDoneJob] Done none).1 = Except.ok 1 :=
  ⟨(clean_spec [demoDoneJob] Pending none).1 (by decide),
   by
     have h := ((clean_spec [demoDoneJob] Done none).2 (by decide)).1
     rw [h]
     rfl⟩

/-! ### C2 — Puller.Return -/

/-- C2: `Return` succeeds exactly when the store holds a row with the
job's identifier in Processing state; on success the row and the caller's
snapshot move to Pending with the lock cleared, `next_run_at = now +
backoff` and a refreshed update stamp; otherwise `JobLost` is returned
and both the store and the snapshot are left unchanged. -/
theorem return_spec (store : List Job) (jb : Job) (now backoff : Int) :
    ((returnJob store jb now backoff).1 = none ↔
       ∃ r ∈ store, r.jid = jb.jid ∧ r.status = Processing) ∧
    ((returnJob store jb now backoff).1 = none →
       (returnJob store jb now backoff).2.1 =
         { jb with status := Pending, nextRunAt := now + backoff,
                   lockedUntil := none, updatedAt := now } ∧
       ∀ r ∈ store, r.jid = jb.jid → r.status = Processing →
         { r with status := Pending, nextRunAt := now + backoff,
                  lockedUntil := none, updatedAt := now } ∈
           (returnJob store jb now backoff).2.2) ∧
    ((returnJob store jb now backoff).1 ≠ none →
       (returnJob store jb now backoff).1 = some GqsError.jobLost ∧
       (returnJob store jb now backoff).2.1 = jb ∧
       (returnJob store jb now backoff).2.2 = store) := by
  by_cases h : store.countP (extendPred jb) = 0
  · have hall := List.countP_eq_zero.mp h
    have hres : returnJob store jb now backoff =
        (some GqsError.jobLost, jb,
          store.map fun r =>
            if extendPred jb r then
              { r with status := Pending, nextRunAt := now + backoff,
                       lockedUntil := none, updatedAt := now }
            else r) := by
      simp only [returnJob]
      rw [if_pos h]
    rw [hres]
    refine ⟨?_, ?_, ?_⟩
    · constructor
      · intro hc
        exact absurd hc (by simp)
      · rintro ⟨r, hr, hid, hst⟩
        exact absurd (show extendPred jb r = true by simp [extendPred, hid, hst])
          (hall r hr)
    · intro hc
      exact absurd hc (by simp)
    · intro _
      exact ⟨rfl, rfl, map_guard_id _ _ _ h⟩
  · have hex : ∃ r ∈ store, extendPred jb r = true := by
      by_contra hno
      push_neg at hno
      exact h (List.countP_eq_zero.mpr (by simpa using hno))
    have hres : returnJob store jb now backoff =
        (none,
          { jb with status := Pending, nextRunAt := now + backoff,
                    lockedUntil := none, updatedAt := now },
          store.map fun r =>
            if extendPred jb r then
              { r with status := Pending, nextRunAt := now + backoff,
                       lockedUntil := none, updatedAt := now }
            else r) := by
      simp only [returnJob]
      rw [if_neg h]
    rw [hres]
    refine ⟨?_, ?_, ?_⟩
    · constructor
      · intro _
        obtain ⟨r, hr, hpr⟩ := hex
        simp only [extendPred, Bool.and_eq_true, beq_iff_eq] at hpr
        exact ⟨r, hr, hpr.1, hpr.2⟩
      · intro _
        rfl
    · intro _
      refine ⟨rfl, ?_⟩
      intro r hr hid hst
      have hpr : extendPred jb r = true := by simp [extendPred, hid, hst]
      exact mem_map_guard hr hpr
    · intro hc
      exact absurd rfl hc

/-- C2 witness: returning the sample Processing job succeeds and yields a
Pending row scheduled at `now + backoff`, and returning it against a
store without a Processing row fails with `JobLost` leaving the store
unchanged. -/
theorem return_spec_witness :
    (returnJob [demoProcessingJob] demoProcessingJob 10 20).2.1 =
      { demoProcessingJob with status := Pending, nextRunAt := 30,
                               lockedUntil := none, updatedAt := 10 } ∧
    (returnJob [demoDoneJob] demoProcessingJob 10 20).2.2 = [demoDoneJob] :=
  ⟨((return_spec [demoProcessingJob] demoProcessingJob 10 20).2.1 (by decide)).1,
   ((return_spec [demoDoneJob] demoProcessingJob 10 20).2.2 (by decide)).2.2⟩

/-! ### C10 — transition operations refresh the snapshot in place -/

/-- C10: each successful transition operation rewrites the caller's
snapshot to the post-transition field values while leaving the embedded
message, `CreatedAt` and `Attempts` untouched (`NextRunAt` is rewritten
only by `Return`); a typed-error outcome leaves the snapshot entirely
unchanged. -/
theorem snapshot_frame (store : List Job) (jb : Job) (now lock backoff : Int) :
    (((extendLock store jb now lock).1 = none →
        (extendLock store jb now lock).2.1.message = jb.message ∧
        (extendLock store jb now lock).2.1.createdAt = jb.createdAt ∧
        (extendLock store jb now lock).2.1.attempts = jb.attempts ∧
        (extendLock store jb now lock).2.1.nextRunAt = jb.nextRunAt ∧
        (extendLock store jb now lock).2.1.status = Processing ∧
        (extendLock store jb now lock).2.1.lockedUntil = some (now + lock) ∧
        (extendLock store jb now lock).2.1.updatedAt = now) ∧
      ((extendLock store jb now lock).1 ≠ none →
        (extendLock store jb now lock).2.1 = jb)) ∧
    (((complete store jb now).1 = none →
        (complete store jb now).2.1.message = jb.message ∧
        (complete store jb now).2.1.createdAt = jb.createdAt ∧
        (complete store jb now).2.1.attempts = jb.attempts ∧
        (complete store jb now).2.1.nextRunAt = jb.nextRunAt ∧
        (complete store jb now).2.1.status = Done ∧
        (complete store jb now).2.1.lockedUntil = none ∧
        (complete store jb now).2.1.updatedAt = now) ∧
      ((complete store jb now).1 ≠ none → (complete store jb now).2.1 = jb)) ∧
    (((returnJob store jb now backoff).1 = none →
        (returnJob store jb now backoff).2.1.message = jb.message ∧
        (returnJob store jb now backoff).2.1.createdAt = jb.createdAt ∧
        (returnJob store jb now backoff).2.1.attempts = jb.attempts ∧
        (returnJob store jb now backoff).2.1.status = Pending ∧
        (returnJob store jb now backoff).2.1.lockedUntil = none ∧
        (returnJob store jb now backoff).2.1.nextRunAt = now + backoff ∧
        (returnJob store jb now backoff).2.1.updatedAt = now) ∧
      ((returnJob store jb now backoff).1 ≠ none →
        (returnJob store jb now backoff).2.1 = jb)) ∧
    (((kill store jb now).1 = none →
        (kill store jb now).2.1.message = jb.message ∧
        (kill store jb now).2.1.createdAt = jb.createdAt ∧
        (kill store jb now).2.1.attempts = jb.attempts ∧
        (kill store jb now).2.1.nextRunAt = jb.nextRunAt ∧
        (kill store jb now).2.1.status = Dead ∧
        (kill store jb now).2.1.lockedUntil = none ∧
        (kill store jb now).2.1.updatedAt = now) ∧
      ((kill store jb now).1 ≠ none → (kill store jb now).2.1 = jb)) := by
  refine ⟨⟨?_, ?_⟩, ⟨?_, ?_⟩, ⟨?_, ?_⟩, ⟨?_, ?_⟩⟩ <;>
    simp only [extendLock, complete, returnJob, kill] <;>
      (split <;> intro hc <;> simp_all)

/-- C10 witness: extending the sample Processing job keeps its attempt
counter, and killing a job absent from the store leaves the snapshot
unchanged. -/
theorem snapshot_frame_witness :
    (extendLock [demoProcessingJob] demoProcessingJob 10 40).2.1.attempts =
      demoProcessingJob.attempts ∧
    (kill [demoDoneJob] demoProcessingJob 10).2.1 = demoProcessingJob :=
  ⟨(((snapshot_frame [demoProcessingJob] demoProcessingJob 10 40 0).1.1
      (by decide)).2.2).1,
   ((snapshot_frame [demoDoneJob] demoProcessingJob 10 0 0).2.2.2.2
      (by decide))⟩

/-! ### C3 — lock/status invariant across all mutating operations -/

/-- A guarded row update preserves the row invariant when the update
preserves it on every matched row. -/
theorem storeInv_map_ite (P : Job → Prop) [DecidablePred P] (f : Job → Job)
    (store : List Job) (h : storeInv store = true)
    (hf : ∀ r, P r → jobInv r = true → jobInv (f r) = true) :
    storeInv (store.map fun r => if P r then f r else r) = true := by
  simp only [storeInv, List.all_eq_true] at h ⊢
  intro x hx
  rw [List.mem_map] at hx
  obtain ⟨r, hr, rfl⟩ := hx
  by_cases hp : P r
  · rw [if_pos hp]
    exact hf r hp (h r hr)
  · rw [if_neg hp]
    exact h r hr

/-- C3: after each mutating operation — `Push`, `Pull`, `ExtendLock`,
`Complete`, `Return`, `Kill` — every stored row still has its lock set
exactly when its status is Processing. -/
theorem invariant_preserved (store : List Job) (msg : Message) (jb : Job)
    (now delay lock backoff : Int) (batch : Nat)
    (h : storeInv store = true) :
    storeInv (push store msg now delay) = true ∧
    storeInv (pull store now batch lock).2 = true ∧
    storeInv (extendLock store jb now lock).2.2 = true ∧
    storeInv (complete store jb now).2.2 = true ∧
    storeInv (returnJob store jb now backoff).2.2 = true ∧
    storeInv (kill store jb now).2.2 = true := by
  refine ⟨?_, ?_, ?_, ?_, ?_, ?_⟩
  · have hnew : jobInv (fromMessage msg now delay) = true := rfl
    simp [push, storeInv, List.all_append, hnew]
    simpa [storeInv] using h
  · simp only [pull]
    exact storeInv_map_ite _ _ _ h fun r _ _ => rfl
  · simp only [extendLock]
    split <;>
      exact storeInv_map_ite _ _ _ h fun r hp _ => by
        simp only [extendPred, Bool.and_eq_true, beq_iff_eq] at hp
        simp [jobInv, hp.2]
  · simp only [complete]
    split <;> exact storeInv_map_ite _ _ _ h fun r _ _ => rfl
  · simp only [returnJob]
    split <;> exact storeInv_map_ite _ _ _ h fun r _ _ => rfl
  · simp only [kill]
    split <;> exact storeInv_map_ite _ _ _ h fun r _ _ => rfl

/-- C3 witness: pulling from and killing within a two-row store that
satisfies the invariant keeps the invariant. -/
theorem invariant_preserved_witness :
    storeInv (pull [demoPendingJob, demoProcessingJob] 100 5 60).2 = true ∧
    storeInv (kill [demoPendingJob, demoProcessingJob] demoPendingJob 100).2.2 = true :=
  ⟨(invariant_preserved [demoPendingJob, demoProcessingJob] demoMessage
      demoPendingJob 100 0 60 0 5 (by decide)).2.1,
   (invariant_preserved [demoPendingJob, demoProcessingJob] demoMessage
      demoPendingJob 100 0 60 0 5 (by decide)).2.2.2.2.2⟩

/-! ### C1 — Puller.Pull -/

/-- C1: `Pull` returns at most `batch` snapshots, ordered by `NextRunAt`
ascending; every returned snapshot stems from an eligible stored row and
carries status Processing, an incremented attempt counter, the lock
`now + lock` and a refreshed update stamp, and is itself a row of the
mutated store; when no row is eligible the result is empty. -/
theorem pull_spec (store : List Job) (now : Int) (batch : Nat) (lock : Int) :
    (pull store now batch lock).1.length ≤ batch ∧
    List.Sorted runLE (pull store now batch lock).1 ∧
    (∀ j ∈ (pull store now batch lock).1,
       j.status = Processing ∧ j.lockedUntil = some (now + lock) ∧
       j.updatedAt = now ∧
       ∃ r ∈ store, eligible now r = true ∧ j.jid = r.jid ∧
         j.attempts = r.attempts + 1 ∧ j.nextRunAt = r.nextRunAt ∧
         j.message = r.message ∧ j.createdAt = r.createdAt ∧
         j ∈ (pull store now batch lock).2) ∧
    ((∀ r ∈ store, eligible now r = false) → (pull store now batch lock).1 = []) := by
  have hsel : (pull store now batch lock).1 =
      (pullSelect store now batch).map (pullUpdate now (now + lock)) := rfl
  have hst : (pull store now batch lock).2 =
      store.map (fun r =>
        if r.jid ∈ (pullSelect store now batch).map Job.jid then
          pullUpdate now (now + lock) r
        else r) := rfl
  refine ⟨?_, ?_, ?_, ?_⟩
  · rw [hsel, List.length_map, pullSelect, List.length_take]
    exact min_le_left _ _
  · rw [hsel, List.Sorted, List.pairwise_map]
    have h1 : List.Pairwise runLE
        (List.insertionSort runLE (store.filter (eligible now))) :=
      List.sorted_insertionSort runLE _
    have h2 : List.Pairwise runLE (pullSelect store now batch) :=
      h1.sublist (List.take_sublist _ _)
    exact h2.imp fun hab => by simpa [runLE, pullUpdate] using hab
  · intro j hj
    rw [hsel, List.mem_map] at hj
    obtain ⟨r, hrsel, rfl⟩ := hj
    have hrsort : r ∈ List.insertionSort runLE (store.filter (eligible now)) :=
      (List.take_sublist _ _).subset hrsel
    have hrfil : r ∈ store.filter (eligible now) := by simpa using hrsort
    obtain ⟨hrstore, helig⟩ := List.mem_filter.mp hrfil
    refine ⟨rfl, rfl, rfl, r, hrstore, helig, rfl, rfl, rfl, rfl, rfl, ?_⟩
    rw [hst]
    have hid : r.jid ∈ (pullSelect store now batch).map Job.jid :=
      List.mem_map_of_mem Job.jid hrsel
    have hmem := List.mem_map_of_mem
      (fun x : Job =>
        if x.jid ∈ (pullSelect store now batch).map Job.jid then
          pullUpdate now (now + lock) x
        else x) hrstore
    simpa [hid] using hmem
  · intro hnone
    have hfil : store.filter (eligible now) = [] :=
      List.filter_eq_nil_iff.mpr fun a ha => by simp [hnone a ha]
    rw [hsel, pullSelect, hfil]
    simp

/-- C1 witness: pulling from a store whose only row is terminal returns
nothing, and the batch bound holds on a store with an eligible row. -/
theorem pull_spec_witness :
    (pull [demoDoneJob] 100 2 7).1 = [] ∧
    (pull [demoPendingJob] 100 2 7).1.length ≤ 2 :=
  ⟨(pull_spec [demoDoneJob] 100 2 7).2.2.2 (by decide),
   (pull_spec [demoPendingJob] 100 2 7).1⟩

/-! ### C7 — backoff counter -/

/-- C7: `next` reports exhaustion exactly when `MaxRetries` is positive
and the attempt count exceeds it (so `MaxRetries = 0` never exhausts);
otherwise it returns the exponential delay
`InitialInterval * Multiplier^(attempt-1)` clamped from above by
`MaxInterval`, randomised within `[exp*(1-r), exp*(1+r)]` when the
randomisation factor is positive. -/
theorem backoff_spec (bc : BackoffConfig) (attempt : Nat) (u : ℚ)
    (h1 : 1 ≤ attempt) (h2 : attempt ≤ 4294967295)
    (hu0 : 0 ≤ u) (hu1 : u < 1)
    (hi : 0 ≤ bc.initialInterval) (hm : 0 ≤ bc.multiplier)
    (hx : 0 ≤ bc.maxInterval) :
    ((backoffNext bc attempt u).2 = false ↔
       0 < bc.maxRetries ∧ bc.maxRetries < attempt) ∧
    ((backoffNext bc attempt u).2 = true →
       (bc.randomizationFactor ≤ 0 →
          (backoffNext bc attempt u).1 =
            min (bc.initialInterval * bc.multiplier ^ (attempt - 1))
              bc.maxInterval) ∧
       (0 < bc.randomizationFactor →
          min (bc.initialInterval * bc.multiplier ^ (attempt - 1)) bc.maxInterval *
              (1 - bc.randomizationFactor) ≤ (backoffNext bc attempt u).1 ∧
          (backoffNext bc attempt u).1 ≤
            min (bc.initialInterval * bc.multiplier ^ (attempt - 1)) bc.maxInterval *
              (1 + bc.randomizationFactor))) := by
  have hexp : u32sub1 attempt = attempt - 1 := by
    have h : attempt + 4294967295 = (attempt - 1) + 4294967296 := by omega
    unfold u32sub1
    rw [h, Nat.add_mod_right]
    exact Nat.mod_eq_of_lt (by omega)
  have he0 : (0 : ℚ) ≤ bc.initialInterval * bc.multiplier ^ (attempt - 1) :=
    mul_nonneg hi (pow_nonneg hm _)
  have hE0 : (0 : ℚ) ≤
      min (bc.initialInterval * bc.multiplier ^ (attempt - 1)) bc.maxInterval :=
    le_min he0 hx
  have hclamp :
      (if bc.initialInterval * bc.multiplier ^ u32sub1 attempt > bc.maxInterval
       then bc.maxInterval
       else bc.initialInterval * bc.multiplier ^ u32sub1 attempt) =
        min (bc.initialInterval * bc.multiplier ^ (attempt - 1)) bc.maxInterval := by
    rw [hexp]
    by_cases hgt : bc.initialInterval * bc.multiplier ^ (attempt - 1) > bc.maxInterval
    · rw [if_pos hgt, min_eq_right (le_of_lt hgt)]
    · rw [if_neg hgt, min_eq_left (not_lt.mp hgt)]
  by_cases hr : 0 < bc.maxRetries ∧ bc.maxRetries < attempt
  · constructor
    · simp [backoffNext, hr]
    · intro htrue
      simp [backoffNext, hr] at htrue
  · constructor
    · simp [backoffNext, hr]
    · intro _
      constructor
      · intro hrle
        have hnr : ¬ (0 < bc.randomizationFactor) := not_lt.mpr hrle
        simp only [backoffNext, if_neg hr, hclamp, if_neg hnr]
      · intro hrpos
        simp only [backoffNext, if_neg hr, hclamp, if_pos hrpos]
        have hrE : (0 : ℚ) ≤ bc.randomizationFactor *
            min (bc.initialInterval * bc.multiplier ^ (attempt - 1)) bc.maxInterval :=
          mul_nonneg (le_of_lt hrpos) hE0
        constructor
        · nlinarith [mul_nonneg hu0 hrE]
        · nlinarith [mul_nonneg (sub_nonneg.mpr (le_of_lt hu1)) hrE]

/-- C7 witness: with `MaxRetries = 2`, `InitialInterval = 10`,
`MaxInterval = 100`, `Multiplier = 3` and no randomisation, the second
attempt is granted the deterministic delay `10 * 3`. -/
theorem backoff_spec_witness :
    (backoffNext ⟨2, 10, 100, 3, 0⟩ 2 0).1 =
      min ((10 : ℚ) * 3 ^ (2 - 1)) 100 :=
  (((backoff_spec ⟨2, 10, 100, 3, 0⟩ 2 0 (by decide) (by decide)
      (by norm_num) (by norm_num) (by norm_num) (by norm_num)
      (by norm_num)).2 (by decide)).1 (by norm_num))

/-! ### C4 — the Kill sentinel is not special-cased by Worker.handle -/

/-- Under the zero-value backoff configuration the counter never reports
exhaustion and grants a zero delay. -/
theorem backoffNext_zeroConfig : backoffNext ⟨0, 0, 0, 0, 0⟩ 1 0 = (0, true) := by
  have hu : u32sub1 1 = 0 := by norm_num [u32sub1]
  simp [backoffNext, hu]

/-- C4: evaluation of the result interpretation of `Worker.handle` at the
input of `TestWorkerKillShortcut` — a handler returning the `ErrKill`
sentinel, attempts 1, zero-value backoff configuration. The decision is
`Return` with zero delay, not `Kill`: the sentinel is treated as an
ordinary error and fed to the backoff policy, contradicting the README
and the test, which demand an immediate transition to Dead. -/
theorem killSentinel_decision :
    handleDecision ⟨0, 0, 0, 0, 0⟩ 1 0 (some GoError.kill) = Outcome.retryJob 0 ∧
    handleDecision ⟨0, 0, 0, 0, 0⟩ 1 0 (some GoError.kill) ≠ Outcome.killJob := by
  constructor
  · simp [handleDecision, backoffNext_zeroConfig]
  · simp [handleDecision, backoffNext_zeroConfig]

/-! ### C5 — behaviour after a failed lease extension -/

/-- The select loop of `handleOrExtend` propagates the first extension
failure, cancelling the derived context. -/
theorem handleOrExtend_firstError (pre rest : List (Option GoError))
    (e : GoError) (hres : Option GoError) (hpre : ∀ x ∈ pre, x = none) :
    handleOrExtend (pre ++ some e :: rest) hres = (some e, true) := by
  induction pre with
  | nil => rfl
  | cons x xs ih =>
    have hx : x = none := hpre x (List.mem_cons_self x xs)
    subst hx
    show handleOrExtend (none :: (xs ++ some e :: rest)) hres = _
    simp only [handleOrExtend]
    exact ih fun y hy => hpre y (List.mem_cons_of_mem _ hy)

/-- C5 counterexample: an extension failure with an error other than
`LockLost` (a generic storage error) cancels the context but does not
abandon the job — the worker proceeds to a `Return` transition,
contradicting the claim that no further transition follows. -/
theorem extendFailure_counterexample :
    (handleOrExtend [some (GoError.generic 0)] none).2 = true ∧
    handleDecision ⟨0, 0, 0, 0, 0⟩ 1 0
      (handleOrExtend [some (GoError.generic 0)] none).1 = Outcome.retryJob 0 ∧
    Outcome.retryJob (0 : ℚ) ≠ Outcome.abandon := by
  refine ⟨rfl, ?_, by decide⟩
  show handleDecision ⟨0, 0, 0, 0, 0⟩ 1 0 (some (GoError.generic 0)) = Outcome.retryJob 0
  simp [handleDecision, backoffNext_zeroConfig]

/-- C5 amended: when a lease-renewal `ExtendLock` call fails, the worker
cancels the derived per-job context; if the failure is `LockLost` it
abandons the job with no further transition, while any other extension
error falls through to the backoff policy and yields a `Return` or
`Kill` transition. -/
theorem extendFailure_spec (pre rest : List (Option GoError)) (e : GoError)
    (hres : Option GoError) (bc : BackoffConfig) (att : Nat) (u : ℚ)
    (hpre : ∀ x ∈ pre, x = none) :
    handleOrExtend (pre ++ some e :: rest) hres = (some e, true) ∧
    (e = GoError.lockLost →
       handleDecision bc att u (handleOrExtend (pre ++ some e :: rest) hres).1 =
         Outcome.abandon) ∧
    (e ≠ GoError.lockLost →
       (∃ d, handleDecision bc att u
           (handleOrExtend (pre ++ some e :: rest) hres).1 = Outcome.retryJob d) ∨
       handleDecision bc att u (handleOrExtend (pre ++ some e :: rest) hres).1 =
         Outcome.killJob) := by
  have hfirst := handleOrExtend_firstError pre rest e hres hpre
  refine ⟨hfirst, ?_, ?_⟩
  · intro he
    subst he
    rw [hfirst]
    simp [handleDecision]
  · intro hne
    rw [hfirst]
    simp only [handleDecision]
    rw [if_neg hne]
    rcases hB : backoffNext bc att u with ⟨d, ok⟩
    cases ok
    · right
      simp [hB]
    · left
      exact ⟨d, by simp [hB]⟩

/-- C5 witness: a `LockLost` extension failure leads to abandonment. -/
theorem extendFailure_spec_witness :
    handleDecision ⟨0, 0, 0, 0, 0⟩ 1 0
      (handleOrExtend [some GoError.lockLost] none).1 = Outcome.abandon :=
  (extendFailure_spec [] [] GoError.lockLost none ⟨0, 0, 0, 0, 0⟩ 1 0
      (by simp)).2.1 rfl

/-! ### C9 — lifecycle guard -/

/-- C9 counterexample: the call sequence Start, Stop, Start against a
fresh instance succeeds at every step — the compare-and-set lifecycle is
re-entrant after a successful Stop, so a second successful Start does
occur. -/
theorem lifecycle_restart_counterexample :
    (lcRun lcStopped [LcOp.start, LcOp.stop, LcOp.start]).1 =
      [none, none, none] ∧
    countStartOk [LcOp.start, LcOp.stop, LcOp.start]
      (lcRun lcStopped [LcOp.start, LcOp.stop, LcOp.start]).1 = 2 := by
  decide

/-- Running the lifecycle machine keeps the state binary and balances
successful Start and Stop counts against the state change. -/
theorem lcRun_counts (ops : List LcOp) : ∀ s : Nat, s ≤ 1 →
    countStartOk ops (lcRun s ops).1 + s =
      countStopOk ops (lcRun s ops).1 + (lcRun s ops).2 ∧
    (lcRun s ops).2 ≤ 1 := by
  induction ops with
  | nil =>
    intro s hs
    simp [lcRun, countStartOk, countStopOk, hs]
  | cons op rest ih =>
    intro s hs
    have h0 := ih 0 (by decide)
    have h1 := ih 1 (by decide)
    simp only [countStartOk, countStopOk] at h0 h1
    interval_cases s <;> cases op <;>
      · simp [lcRun, lcStep, lcStopped, lcStarted, countStartOk, countStopOk,
          List.countP_cons]
        omega

/-- C9 amended: `Start` on a started instance fails with `DoubleStarted`
and `Stop` on a stopped instance fails with `DoubleStopped`; in every
call sequence the successful Starts exceed the successful Stops by at
most one, so a second successful Start requires an intervening
successful Stop — after such a Stop, a restart does succeed. -/
theorem lifecycle_guard (ops : List LcOp) :
    lcStep lcStarted LcOp.start = (some LcError.doubleStarted, lcStarted) ∧
    lcStep lcStopped LcOp.stop = (some LcError.doubleStopped, lcStopped) ∧
    countStopOk ops (lcRun lcStopped ops).1 ≤
      countStartOk ops (lcRun lcStopped ops).1 ∧
    countStartOk ops (lcRun lcStopped ops).1 ≤
      countStopOk ops (lcRun lcStopped ops).1 + 1 := by
  have h := lcRun_counts ops lcStopped (by decide)
  simp only [lcStopped] at h ⊢
  refine ⟨by decide, by decide, ?_, ?_⟩ <;> omega

end Gqs
